import Mathlib

/-!
Verification of the TrailBlazer planning core (`highway_env/agent/trailblazer.py`).

The planner consists of three pieces:

* `AvgNode.run` — memoized sampling of a fixed (state, action) pair followed by a
  Monte-Carlo backup.  The Python body uses only field arithmetic and comparisons,
  so it is embedded over `ℚ` and is fully executable.  The recursive call into a
  child `MaxNode` is abstracted as an oracle `cv`, and the stochastic generative
  model (`copy.deepcopy(self.state); new_state.step(self.action)`) as an oracle
  `stepf` indexed by the position of the sample being drawn.
* `MaxNode.run` — a confidence-bound elimination loop using `log`/`sqrt`,
  embedded over `ℝ`; the loop is fuel-indexed and the recursive calls into child
  `AvgNode`s are an oracle `est`.  `np.sqrt` of a negative radicand yields
  `nan`, which poisons the round; such a round is modelled as an exceptional
  exit (see `elimRound`).
* `TrailBlazer.__init__` / `TrailBlazer.run` — closed-form parameter derivation
  over `ℝ`.  Python raises `ZeroDivisionError` only on plain-float `x / 0.0`;
  divisions whose numerator is a numpy scalar follow IEEE semantics
  (`inf`/`nan` plus a RuntimeWarning) and do not raise.  The genuinely
  exception-raising sites are modelled with `Option`.
-/

/-! ## AvgNode: state and sampling -/

/-- The mutable fields of an `AvgNode`: the owning state (`self.state`), the list
of sampled successor states (`self.sampled_nodes`, one entry per generative-model
call, where an entry records the state of the child `MaxNode` appended — by the
deduplication scan, within one `AvgNode` two entries are the same node object iff
their states are equal), and the accumulated reward sum (`self.r`). -/
structure AvgState (S : Type) where
  state : S
  sampled : List S
  r : ℚ
  deriving DecidableEq

/-- The body of the `while len(self.sampled_nodes) < m` loop, iterated `n` times:
each iteration makes one generative-model call (`stepf` applied to the owning
state and the index of the sample being drawn), appends the resulting successor
state and adds the observed reward (`self.r += new_reward`).  Each iteration of
the Python loop appends exactly one entry whether or not the successor was
already sampled, so iterating a fixed number of times is equivalent. -/
def drawSamples {S : Type} (stepf : S → ℕ → S × ℚ) (st : S) :
    ℕ → List S × ℚ → List S × ℚ
  | 0, acc => acc
  | Nat.succ n, acc =>
      drawSamples stepf st n
        (acc.1 ++ [(stepf st acc.1.length).1], acc.2 + (stepf st acc.1.length).2)

/-- One step of the `uniques`/`counts` grouping loop: find the first record for
state `s` and increment its count (`counts[i] += 1`), or append a new record with
count 1. -/
def bump {S : Type} [DecidableEq S] : List (S × ℕ) → S → List (S × ℕ)
  | [], s => [(s, 1)]
  | p :: ps, s => if p.1 = s then (p.1, p.2 + 1) :: ps else p :: bump ps s

/-- The grouping pass over `active_nodes`: occurrence counts of the distinct
successor states, in first-occurrence order. -/
def groupCounts {S : Type} [DecidableEq S] (l : List S) : List (S × ℕ) :=
  l.foldl bump []

/-- The discounted child average
`mu = Σ_i counts[i]/m * uniques[i].run(counts[i], epsilon/gamma)`, with the
child's recursive `run` abstracted by the oracle `cv`. -/
def backup {S : Type} [DecidableEq S] (γ m ε : ℚ) (cv : S → ℕ → ℚ → ℚ)
    (active : List S) : ℚ :=
  ((groupCounts active).map fun p => (p.2 : ℚ) / m * cv p.1 p.2 (ε / γ)).sum

/-- The final `return self.r/len(self.sampled_nodes) + self.gamma*mu`.  The
divisor is the length of the whole cache, not of `active`; Python raises
`ZeroDivisionError` when the cache is empty, modelled by `none`. -/
def avgValue {S : Type} [DecidableEq S] (γ m ε : ℚ) (cv : S → ℕ → ℚ → ℚ)
    (r : ℚ) (sampled active : List S) : Option ℚ :=
  if sampled.length = 0 then none
  else some (r / (sampled.length : ℚ) + γ * backup γ m ε cv active)

/-- `AvgNode.run(m, epsilon)`.  Mirrors the Python control flow:

* `1/(1-self.gamma)` raises `ZeroDivisionError` when `gamma == 1`;
* `if epsilon >= 1/(1-self.gamma): return 0`;
* if `len(self.sampled_nodes) > m`, take `self.sampled_nodes[:m]` — Python list
  slicing demands an integer index (`TypeError` on a float, modelled by `none`)
  and interprets a negative integer relative to the end of the list;
* otherwise draw samples until the cache size reaches `m`;
* finish with the grouping pass and the backup formula.

Returns the updated node together with the returned value (`none` = exception). -/
def AvgNode.run {S : Type} [DecidableEq S] (γ : ℚ) (stepf : S → ℕ → S × ℚ)
    (cv : S → ℕ → ℚ → ℚ) (nd : AvgState S) (m ε : ℚ) : AvgState S × Option ℚ :=
  if 1 - γ = 0 then (nd, none)
  else if 1 / (1 - γ) ≤ ε then (nd, some 0)
  else if m < (nd.sampled.length : ℚ) then
    if m.den = 1 then
      let k : ℤ := if 0 ≤ m.num then m.num else (nd.sampled.length : ℤ) + m.num
      (nd, avgValue γ m ε cv nd.r nd.sampled (nd.sampled.take k.toNat))
    else (nd, none)
  else
    let tgt := (Int.ceil m).toNat
    let res := drawSamples stepf nd.state (tgt - nd.sampled.length) (nd.sampled, nd.r)
    (⟨nd.state, res.1, res.2⟩, avgValue γ m ε cv res.2 res.1 res.1)

/-! ### Basic lemmas about sampling and grouping -/

theorem drawSamples_fst_length {S : Type} (stepf : S → ℕ → S × ℚ) (st : S) :
    ∀ (n : ℕ) (acc : List S × ℚ),
      (drawSamples stepf st n acc).1.length = acc.1.length + n := by
  intro n
  induction n with
  | zero => intro acc; simp [drawSamples]
  | succ k ih =>
      intro acc
      rw [drawSamples, ih]
      simp
      omega

theorem bump_snd_sum {S : Type} [DecidableEq S] :
    ∀ (acc : List (S × ℕ)) (s : S),
      ((bump acc s).map Prod.snd).sum = (acc.map Prod.snd).sum + 1 := by
  intro acc
  induction acc with
  | nil => intro s; simp [bump]
  | cons p ps ih =>
      intro s
      by_cases h : p.1 = s
      · simp [bump, h]; omega
      · simp [bump, h, ih s]; omega

theorem foldl_bump_snd_sum {S : Type} [DecidableEq S] :
    ∀ (l : List S) (acc : List (S × ℕ)),
      ((l.foldl bump acc).map Prod.snd).sum = (acc.map Prod.snd).sum + l.length := by
  intro l
  induction l with
  | nil => intro acc; simp
  | cons s rest ih =>
      intro acc
      simp only [List.foldl_cons, ih (bump acc s), bump_snd_sum, List.length_cons]
      omega

theorem groupCounts_snd_sum {S : Type} [DecidableEq S] (l : List S) :
    ((groupCounts l).map Prod.snd).sum = l.length := by
  simpa using foldl_bump_snd_sum l []

/-! ## Claim C6: early exit -/

/-- Claim C6: for every AvgNode, every budget `m` and every `epsilon` with
`epsilon ≥ 1/(1−γ)` (and `γ ≠ 1`, so that `1/(1-γ)` itself is defined),
`AvgNode.run` returns 0 immediately: the sample cache, accumulated reward sum
and owning state are untouched and no generative-model call is made. -/
theorem avgRun_early_return {S : Type} [DecidableEq S] (γ : ℚ)
    (stepf : S → ℕ → S × ℚ) (cv : S → ℕ → ℚ → ℚ) (nd : AvgState S) (m ε : ℚ)
    (h1 : 1 - γ ≠ 0) (h2 : 1 / (1 - γ) ≤ ε) :
    AvgNode.run γ stepf cv nd m ε = (nd, some 0) := by
  rw [AvgNode.run, if_neg h1, if_pos h2]

def stepD : ℕ → ℕ → ℕ × ℚ := fun _ k => (k + 1, if k = 0 then 1 else 0)

def cvZ : ℕ → ℕ → ℚ → ℚ := fun _ _ _ => 0

def nd0 : AvgState ℕ := ⟨0, [], 0⟩

theorem avgRun_early_return_witness :
    AvgNode.run (1/2 : ℚ) stepD cvZ nd0 5 2 = (nd0, some 0) :=
  avgRun_early_return (1/2) stepD cvZ nd0 5 2 (by norm_num) (by norm_num)

/-! ## Claim C8: the owning state is never mutated -/

/-- Claim C8: `AvgNode.run` never mutates the node's owning state: each
generative-model step acts on a fresh copy (`stepf` consumes, never replaces,
`nd.state`), so after any call the owning state equals its value before the
call. -/
theorem avgRun_preserves_owner_state {S : Type} [DecidableEq S] (γ : ℚ)
    (stepf : S → ℕ → S × ℚ) (cv : S → ℕ → ℚ → ℚ) (nd : AvgState S) (m ε : ℚ) :
    ((AvgNode.run γ stepf cv nd m ε).1).state = nd.state := by
  rw [AvgNode.run]
  split_ifs <;> rfl

/-! ## Claim C10: division by zero at budget 0, safety for integer budgets ≥ 1 -/

/-- Claim C10: on a fresh AvgNode (empty sample cache) a call with budget
`m = 0` and `epsilon < 1/(1−γ)` reaches `self.r/len(self.sampled_nodes)` with an
empty cache and dies of division by zero (`none`); under the precondition that
the budget is an integer `k ≥ 1` — as in every call `MaxNode.run` issues, whose
round counters and per-child occurrence counts are at least 1 — the final
division is safe and a value is returned. -/
theorem avgRun_div_by_zero_budget {S : Type} [DecidableEq S] (γ : ℚ)
    (stepf : S → ℕ → S × ℚ) (cv : S → ℕ → ℚ → ℚ) (ε : ℚ) (s0 : S) (r0 : ℚ)
    (nd : AvgState S) (k : ℕ)
    (h1 : 1 - γ ≠ 0) (h2 : ε < 1 / (1 - γ)) (hk : 1 ≤ k) :
    (AvgNode.run γ stepf cv ⟨s0, [], r0⟩ 0 ε).2 = none ∧
      ((AvgNode.run γ stepf cv nd (k : ℚ) ε).2).isSome := by
  have h2' : ¬ (1 / (1 - γ) ≤ ε) := not_le.mpr h2
  constructor
  · rw [AvgNode.run, if_neg h1, if_neg h2']
    simp [drawSamples, avgValue]
  · rw [AvgNode.run, if_neg h1, if_neg h2']
    by_cases hlt : (k : ℚ) < (nd.sampled.length : ℚ)
    · rw [if_pos hlt, if_pos (Rat.den_natCast k)]
      have hlen : k < nd.sampled.length := by exact_mod_cast hlt
      have hne : nd.sampled.length ≠ 0 := by omega
      simp [avgValue, hne]
    · rw [if_neg hlt]
      have hle : nd.sampled.length ≤ k := by
        have h := not_lt.mp hlt
        exact_mod_cast h
      have hlen : (drawSamples stepf nd.state
          ((Int.ceil ((k : ℕ) : ℚ)).toNat - nd.sampled.length)
          (nd.sampled, nd.r)).1.length = k := by
        rw [drawSamples_fst_length]
        simp only [Int.ceil_natCast, Int.toNat_natCast]
        omega
      have hk0 : k ≠ 0 := by omega
      simp [avgValue, hlen, hk0]
      intro hnil
      have hl := drawSamples_fst_length stepf nd.state (k - nd.sampled.length)
        (nd.sampled, nd.r)
      rw [hnil] at hl
      simp at hl
      omega

theorem avgRun_div_by_zero_budget_witness :
    (AvgNode.run (1/2 : ℚ) stepD cvZ ⟨0, [], 0⟩ 0 1).2 = none ∧
      ((AvgNode.run (1/2 : ℚ) stepD cvZ nd0 ((1 : ℕ) : ℚ) 1).2).isSome :=
  avgRun_div_by_zero_budget (1/2) stepD cvZ 1 0 0 nd0 1
    (by norm_num) (by norm_num) (le_refl 1)

/-! ## Claim C1: the value returned by `AvgNode.run` -/

/-- Claim C1 (amended): for an integer budget `k ≥ 1` and `epsilon < 1/(1−γ)`,
`AvgNode.run` returns
`(accumulated reward sum over the whole cache)/(total cache size)
 + γ · Σ_i (c_i/k) · cv(child_i, c_i, ε/γ)`,
where the `c_i` are the occurrence counts of the distinct children among the
first `k` cached samples and `Σ c_i = k`.  The reward average is over the whole
memoized cache (`self.r / len(self.sampled_nodes)`), not over the first `k`
samples; the two coincide exactly when the cache holds `k` samples on return. -/
theorem avgRun_backup_formula {S : Type} [DecidableEq S] (γ : ℚ)
    (stepf : S → ℕ → S × ℚ) (cv : S → ℕ → ℚ → ℚ) (nd : AvgState S) (k : ℕ) (ε : ℚ)
    (h1 : 1 - γ ≠ 0) (h2 : ε < 1 / (1 - γ)) (hk : 1 ≤ k) :
    ∃ nd' : AvgState S,
      AvgNode.run γ stepf cv nd (k : ℚ) ε =
        (nd', some (nd'.r / (nd'.sampled.length : ℚ) +
          γ * backup γ (k : ℚ) ε cv (nd'.sampled.take k))) ∧
      ((groupCounts (nd'.sampled.take k)).map Prod.snd).sum = k ∧
      k ≤ nd'.sampled.length := by
  have h2' : ¬ (1 / (1 - γ) ≤ ε) := not_le.mpr h2
  rw [AvgNode.run, if_neg h1, if_neg h2']
  by_cases hlt : (k : ℚ) < (nd.sampled.length : ℚ)
  · rw [if_pos hlt, if_pos (Rat.den_natCast k)]
    have hlen : k < nd.sampled.length := by exact_mod_cast hlt
    refine ⟨nd, ?_, ?_, by omega⟩
    · have hne : nd.sampled.length ≠ 0 := by omega
      have hnum : ((k : ℚ).num : ℤ) = (k : ℤ) := by
        simp [Rat.num_natCast]
      simp only [hnum, Rat.num_natCast, Int.natCast_nonneg, if_pos, Int.toNat_natCast]
      simp [avgValue, hne]
    · rw [groupCounts_snd_sum, List.length_take]
      omega
  · rw [if_neg hlt]
    have hle : nd.sampled.length ≤ k := by
      have h := not_lt.mp hlt
      exact_mod_cast h
    have hlen : (drawSamples stepf nd.state
        ((Int.ceil ((k : ℕ) : ℚ)).toNat - nd.sampled.length)
        (nd.sampled, nd.r)).1.length = k := by
      rw [drawSamples_fst_length]
      simp only [Int.ceil_natCast, Int.toNat_natCast]
      omega
    refine ⟨⟨nd.state, (drawSamples stepf nd.state
        ((Int.ceil ((k : ℕ) : ℚ)).toNat - nd.sampled.length) (nd.sampled, nd.r)).1,
        (drawSamples stepf nd.state
        ((Int.ceil ((k : ℕ) : ℚ)).toNat - nd.sampled.length) (nd.sampled, nd.r)).2⟩,
        ?_, ?_, le_of_eq hlen.symm⟩
    · have htake : ((drawSamples stepf nd.state
          ((Int.ceil ((k : ℕ) : ℚ)).toNat - nd.sampled.length)
          (nd.sampled, nd.r)).1).take k = (drawSamples stepf nd.state
          ((Int.ceil ((k : ℕ) : ℚ)).toNat - nd.sampled.length) (nd.sampled, nd.r)).1 :=
        List.take_of_length_le (by rw [hlen])
      have hk0 : k ≠ 0 := by omega
      simp only [htake]
      simp [avgValue, hlen, hk0]
      intro hnil
      have hl := drawSamples_fst_length stepf nd.state (k - nd.sampled.length)
        (nd.sampled, nd.r)
      rw [hnil] at hl
      simp at hl
      omega
    · have hc : (AvgState.mk nd.state
          (drawSamples stepf nd.state ((Int.ceil ((k : ℕ) : ℚ)).toNat -
            nd.sampled.length) (nd.sampled, nd.r)).1
          (drawSamples stepf nd.state ((Int.ceil ((k : ℕ) : ℚ)).toNat -
            nd.sampled.length) (nd.sampled, nd.r)).2).sampled.length = k := hlen
      rw [groupCounts_snd_sum, List.length_take, hc]
      omega

theorem avgRun_backup_formula_witness :
    ∃ nd' : AvgState ℕ,
      AvgNode.run (1/2 : ℚ) stepD cvZ nd0 ((2 : ℕ) : ℚ) 1 =
        (nd', some (nd'.r / (nd'.sampled.length : ℚ) +
          (1/2 : ℚ) * backup (1/2) ((2 : ℕ) : ℚ) 1 cvZ (nd'.sampled.take 2))) ∧
      ((groupCounts (nd'.sampled.take 2)).map Prod.snd).sum = 2 ∧
      2 ≤ nd'.sampled.length :=
  avgRun_backup_formula (1/2) stepD cvZ nd0 2 1 (by norm_num) (by norm_num)
    (by norm_num)

/-- Claim C1 counterexample: a node whose cache was filled by a call with budget
2 (rewards 1 and 0, so `self.r = 1`) is then queried with budget `m = 1` and
`epsilon = 1 < 1/(1−γ) = 2`.  The code returns `self.r/len(self.sampled_nodes)
+ γ·μ = 1/2 + 0`, while the claimed value — average of the first `m = 1`
rewards plus the discounted child average — is `1/1 + γ·(1/1)·cv = 1`. -/
theorem avgRun_first_m_average_cex :
    (AvgNode.run (1/2 : ℚ) stepD cvZ
        ((AvgNode.run (1/2 : ℚ) stepD cvZ nd0 2 1).1) 1 1).2 = some (1/2) ∧
    (1/2 : ℚ) ≠ (stepD 0 0).2 / 1 + (1/2) * ((1 : ℚ) / 1 * cvZ 1 1 (1 / (1/2))) := by
  constructor
  · norm_num [AvgNode.run, drawSamples, avgValue, backup, groupCounts, bump,
      stepD, cvZ, nd0]
  · norm_num [stepD, cvZ]

/-! ## Claim C5: idempotent resampling -/

theorem drawSamples_zero {S : Type} (stepf : S → ℕ → S × ℚ) (st : S)
    (acc : List S × ℚ) : drawSamples stepf st 0 acc = acc := rfl

theorem avgRun_at_capacity {S : Type} [DecidableEq S] (γ : ℚ)
    (stepf : S → ℕ → S × ℚ) (cv : S → ℕ → ℚ → ℚ) (nd : AvgState S) (k : ℕ) (ε : ℚ)
    (h1 : ¬ (1 - γ = 0)) (h2 : ¬ (1 / (1 - γ) ≤ ε)) (hl : nd.sampled.length = k) :
    AvgNode.run γ stepf cv nd (k : ℚ) ε =
      (nd, avgValue γ (k : ℚ) ε cv nd.r nd.sampled nd.sampled) := by
  have hnlt : ¬ ((k : ℚ) < (nd.sampled.length : ℚ)) := by
    rw [hl]; exact lt_irrefl _
  rw [AvgNode.run, if_neg h1, if_neg h2, if_neg hnlt]
  simp only [Int.ceil_natCast, Int.toNat_natCast, hl, Nat.sub_self, drawSamples_zero]

/-- Claim C5 (amended): for an integer budget `k` — the only kind issued by the
recursive calls inside the planner — calling `AvgNode.run` twice in succession
with the same `k` and the same `epsilon` draws no further samples on the second
call (the node is returned unchanged) and returns the same value both times.
(For a fractional budget the second call instead dies in `sampled_nodes[:m]`,
see the counterexample.) -/
theorem avgRun_idempotent_integer_budget {S : Type} [DecidableEq S] (γ : ℚ)
    (stepf : S → ℕ → S × ℚ) (cv : S → ℕ → ℚ → ℚ) (nd : AvgState S) (k : ℕ)
    (ε : ℚ) :
    AvgNode.run γ stepf cv (AvgNode.run γ stepf cv nd (k : ℚ) ε).1 (k : ℚ) ε =
      AvgNode.run γ stepf cv nd (k : ℚ) ε := by
  by_cases h1 : 1 - γ = 0
  · have h : (AvgNode.run γ stepf cv nd (k : ℚ) ε).1 = nd := by
      rw [AvgNode.run, if_pos h1]
    rw [h]
  by_cases h2 : 1 / (1 - γ) ≤ ε
  · have h : (AvgNode.run γ stepf cv nd (k : ℚ) ε).1 = nd := by
      rw [AvgNode.run, if_neg h1, if_pos h2]
    rw [h]
  by_cases hlt : (k : ℚ) < (nd.sampled.length : ℚ)
  · have h : (AvgNode.run γ stepf cv nd (k : ℚ) ε).1 = nd := by
      rw [AvgNode.run, if_neg h1, if_neg h2, if_pos hlt, if_pos (Rat.den_natCast k)]
    rw [h]
  · have hle : nd.sampled.length ≤ k := by
      have h := not_lt.mp hlt
      exact_mod_cast h
    have hlen1 : (AvgState.mk nd.state
        (drawSamples stepf nd.state ((Int.ceil ((k : ℕ) : ℚ)).toNat -
          nd.sampled.length) (nd.sampled, nd.r)).1
        (drawSamples stepf nd.state ((Int.ceil ((k : ℕ) : ℚ)).toNat -
          nd.sampled.length) (nd.sampled, nd.r)).2).sampled.length = k := by
      show (drawSamples stepf nd.state ((Int.ceil ((k : ℕ) : ℚ)).toNat -
        nd.sampled.length) (nd.sampled, nd.r)).1.length = k
      rw [drawSamples_fst_length]
      simp only [Int.ceil_natCast, Int.toNat_natCast]
      omega
    have hrun : AvgNode.run γ stepf cv nd (k : ℚ) ε =
        (AvgState.mk nd.state
          (drawSamples stepf nd.state ((Int.ceil ((k : ℕ) : ℚ)).toNat -
            nd.sampled.length) (nd.sampled, nd.r)).1
          (drawSamples stepf nd.state ((Int.ceil ((k : ℕ) : ℚ)).toNat -
            nd.sampled.length) (nd.sampled, nd.r)).2,
         avgValue γ (k : ℚ) ε cv
          (drawSamples stepf nd.state ((Int.ceil ((k : ℕ) : ℚ)).toNat -
            nd.sampled.length) (nd.sampled, nd.r)).2
          (drawSamples stepf nd.state ((Int.ceil ((k : ℕ) : ℚ)).toNat -
            nd.sampled.length) (nd.sampled, nd.r)).1
          (drawSamples stepf nd.state ((Int.ceil ((k : ℕ) : ℚ)).toNat -
            nd.sampled.length) (nd.sampled, nd.r)).1) := by
      rw [AvgNode.run, if_neg h1, if_neg h2, if_neg hlt]
    rw [hrun, avgRun_at_capacity γ stepf cv _ k ε h1 h2 hlen1]

/-- Claim C5 counterexample: with the fractional budget `m = 1/2` the first call
draws one sample and returns a value, but the second identical call finds the
cache larger than `m` and dies in `self.sampled_nodes[:m]` (`TypeError`: list
slice indices must be integers), so it does not return the same value. -/
theorem avgRun_fractional_budget_cex :
    (AvgNode.run (1/2 : ℚ) stepD cvZ nd0 (1/2) 1).2 = some 1 ∧
    (AvgNode.run (1/2 : ℚ) stepD cvZ
      ((AvgNode.run (1/2 : ℚ) stepD cvZ nd0 (1/2) 1).1) (1/2) 1).2 = none := by
  have hc1 : (Int.ceil ((1 : ℚ)/2)) = 1 := by
    rw [Int.ceil_eq_iff]
    constructor <;> norm_num
  have hc : (Int.ceil ((1 : ℚ)/2)).toNat = 1 := by
    rw [hc1]; rfl
  constructor
  · norm_num [AvgNode.run, hc, drawSamples, avgValue, backup, groupCounts, bump,
      stepD, cvZ, nd0]
  · norm_num [AvgNode.run, hc, drawSamples, avgValue, backup, groupCounts, bump,
      stepD, cvZ, nd0]

/-! ## MaxNode: the confidence-bound elimination loop -/

/-- The constants an individual `MaxNode` carries: discount factor `gamma`,
confidence `delta`, correction `alpha`, elimination rate `eta` and branching
factor `K`. -/
structure MaxParams where
  gamma : ℝ
  delta : ℝ
  alpha : ℝ
  eta : ℝ
  K : ℕ

/-- The radicand
`sqr = (log(K*count/(delta*epsilon)) + gamma/(eta-gamma) + alpha + 1)/count`
(lines 29-30).  Its sign decides whether `np.sqrt` returns a number or `nan`. -/
noncomputable def confSqr (p : MaxParams) (ε : ℝ) (count : ℕ) : ℝ :=
  (Real.log ((p.K : ℝ) * (count : ℝ) / (p.delta * ε)) +
    p.gamma / (p.eta - p.gamma) + p.alpha + 1) / (count : ℝ)

/-- The per-round confidence radius `U = 2/(1-gamma) * np.sqrt(sqr)`, as a real
number; meaningful only when `sqr ≥ 0` (`elimRound` checks the sign before
using it — on a negative radicand `np.sqrt` yields `nan`, not
`Real.sqrt`'s clamped 0). -/
noncomputable def confU (p : MaxParams) (ε : ℝ) (count : ℕ) : ℝ :=
  2 / (1 - p.gamma) * Real.sqrt (confSqr p ε count)

/-- One round's estimates
`mu = [(b, b.run(count, U*eta/(1-eta))) for b in candidates]`, with the child
`AvgNode.run` abstracted by the oracle `est` (whose budget argument is a real,
as in the source, where the same method also receives the fractional top-level
budget). -/
noncomputable def roundEstimates {N : Type} (p : MaxParams) (est : N → ℝ → ℝ → ℝ)
    (ε : ℝ) (cands : List N) (count : ℕ) : List (N × ℝ) :=
  cands.map fun b => (b, est b (count : ℝ) (confU p ε count * p.eta / (1 - p.eta)))

/-- `mu_sup = max(mu, key=lambda c: c[1])[1]`: the largest estimate of a round
(0 as a junk value on the empty list, which the loop never produces). -/
noncomputable def muSup {N : Type} (mu : List (N × ℝ)) : ℝ :=
  ((mu.map Prod.snd).maximum).unbot' 0

/-- One iteration of the elimination loop: compute `U` and the estimates, keep
the candidates `c` with `c[1] + 2*U/(1-eta) >= mu_sup - 2*U/(1-eta)`.  Returns
(surviving candidates, the round's `mu`, the round's `U`).

When the radicand is negative, `np.sqrt(sqr)` is `nan` (a RuntimeWarning, not
an exception) and every comparison against the resulting `nan` `U` is false:
the recursive child calls issued with the `nan` precision die with an
`UnboundLocalError` (any descendant MaxNode with more than one action skips its
loop — `inf >= nan` is false — and then reads the unbound `mu`), or, where
every descendant has a single action, the `nan` contaminates the estimates, the
retention filter keeps no candidate and the later `candidates[0]` dies with an
`IndexError`.  Either way the surrounding call raises instead of returning;
such a round is modelled as `none`. -/
noncomputable def elimRound {N : Type} (p : MaxParams) (est : N → ℝ → ℝ → ℝ)
    (ε : ℝ) (cands : List N) (count : ℕ) :
    Option (List N × List (N × ℝ) × ℝ) :=
  if confSqr p ε count < 0 then none
  else some
    (((roundEstimates p est ε cands count).filter fun c =>
        decide (muSup (roundEstimates p est ε cands count) -
          2 * confU p ε count / (1 - p.eta) ≤
            c.2 + 2 * confU p ε count / (1 - p.eta))).map Prod.fst,
     roundEstimates p est ε cands count, confU p ε count)

/-- The loop guard on `U`, which starts at `np.inf` (modelled by `none`):
`U >= (1-eta)*epsilon` is vacuously true at infinity. -/
noncomputable def uOK (p : MaxParams) (ε : ℝ) : Option ℝ → Bool
  | none => true
  | some u => decide ((1 - p.eta) * ε ≤ u)

/-- The `while len(candidates) > 1 and U >= (1-eta)*epsilon` loop, indexed by
fuel; `none` means the fuel ran out before the loop exited, or a round with a
negative radicand raised (see `elimRound`).  Returns the final candidate list
together with the last round's `mu`. -/
noncomputable def elimLoop {N : Type} (p : MaxParams) (est : N → ℝ → ℝ → ℝ)
    (ε : ℝ) :
    ℕ → List N → ℕ → List (N × ℝ) → Option ℝ → Option (List N × List (N × ℝ))
  | 0, cands, _count, lastMu, U =>
      if 1 < cands.length ∧ uOK p ε U = true then none
      else some (cands, lastMu)
  | Nat.succ f, cands, count, lastMu, U =>
      if 1 < cands.length ∧ uOK p ε U = true then
        match elimRound p est ε cands count with
        | none => none
        | some r => elimLoop p est ε f r.1 (count + 1) r.2.1 (some r.2.2)
      else some (cands, lastMu)

/-- `MaxNode.run(m, epsilon)`: run the elimination loop from all children with
`count = 1`, `U = inf`; if more than one candidate survives return the maximum
of the last round's estimates, otherwise recurse into the sole survivor
(`candidates[0]`, an `IndexError` — `none` — on an empty list) with the outer
budget `m` and precision `eta*epsilon`. -/
noncomputable def MaxNode.run {N : Type} (p : MaxParams) (est : N → ℝ → ℝ → ℝ)
    (fuel : ℕ) (children : List N) (m ε : ℝ) : Option ℝ :=
  match elimLoop p est ε fuel children 1 [] none with
  | none => none
  | some (cands, lastMu) =>
      if 1 < cands.length then some (muSup lastMu)
      else
        match cands with
        | [] => none
        | c :: _ => some (est c m (p.eta * ε))

theorem elimLoop_singleton {N : Type} (p : MaxParams) (est : N → ℝ → ℝ → ℝ)
    (ε : ℝ) (fuel : ℕ) (c : N) (count : ℕ) (lastMu : List (N × ℝ))
    (U : Option ℝ) :
    elimLoop p est ε fuel [c] count lastMu U = some ([c], lastMu) := by
  cases fuel <;> · rw [elimLoop, if_neg (by simp)]

/-! ## Claim C7: what `MaxNode.run` returns on loop exit -/

/-- Claim C7: when the elimination loop exits with exactly one candidate left —
including the `K == 1` case in which the loop body never runs — `MaxNode.run`
returns that sole candidate's estimate at the original outer budget `m` and the
relaxed precision `eta*epsilon`; when it exits with more than one candidate,
`MaxNode.run` returns the maximum of the estimates computed in the last
round. -/
theorem maxRun_exit_cases {N : Type} (p : MaxParams) (est : N → ℝ → ℝ → ℝ)
    (fuel : ℕ) (children : List N) (m ε : ℝ) (c : N)
    (lastMu lastMu2 : List (N × ℝ)) (cands : List N) :
    (elimLoop p est ε fuel children 1 [] none = some ([c], lastMu) →
      MaxNode.run p est fuel children m ε = some (est c m (p.eta * ε))) ∧
    (elimLoop p est ε fuel children 1 [] none = some (cands, lastMu2) →
      1 < cands.length →
      MaxNode.run p est fuel children m ε = some (muSup lastMu2)) := by
  constructor
  · intro h
    rw [MaxNode.run, h]
    simp
  · intro h hl
    rw [MaxNode.run, h]
    simp only [if_pos hl]

noncomputable def p0 : MaxParams := ⟨1/2, 1/2, 0, 3/4, 1⟩

def est0 : Unit → ℝ → ℝ → ℝ := fun _ _ _ => 0

theorem maxRun_exit_cases_witness :
    MaxNode.run p0 est0 1 [()] 5 1 = some 0 := by
  have h := (maxRun_exit_cases p0 est0 1 [()] 5 1 () [] [] []).1
    (elimLoop_singleton p0 est0 1 1 () 1 [] none)
  simpa [est0] using h

/-! ## Claim C9: the elimination loop never empties the candidate set -/

theorem confU_nonneg (p : MaxParams) (ε : ℝ) (count : ℕ) (hγ : p.gamma < 1) :
    0 ≤ confU p ε count := by
  apply mul_nonneg
  · apply div_nonneg (by norm_num)
    linarith
  · exact Real.sqrt_nonneg _

theorem elimRound_ne_nil {N : Type} (p : MaxParams) (est : N → ℝ → ℝ → ℝ)
    (ε : ℝ) (cands : List N) (count : ℕ) (rnd : List N × List (N × ℝ) × ℝ)
    (hγ : p.gamma < 1) (hη : p.eta < 1) (hc : cands ≠ [])
    (hr : elimRound p est ε cands count = some rnd) :
    rnd.1 ≠ [] := by
  have hs : ¬ (confSqr p ε count < 0) := by
    intro hs
    rw [elimRound, if_pos hs] at hr
    exact absurd hr (by simp)
  rw [elimRound, if_neg hs] at hr
  cases hr
  have hmu : roundEstimates p est ε cands count ≠ [] := by
    simpa [roundEstimates] using hc
  have hv : (roundEstimates p est ε cands count).map Prod.snd ≠ [] := by
    simpa using hmu
  obtain ⟨a, ha⟩ := WithBot.ne_bot_iff_exists.mp
    (List.maximum_ne_bot_of_ne_nil hv)
  have hmem : a ∈ (roundEstimates p est ε cands count).map Prod.snd :=
    List.maximum_mem ha.symm
  have hsup : muSup (roundEstimates p est ε cands count) = a := by
    rw [muSup, ← ha]
    rfl
  obtain ⟨pr, hpr, hpa⟩ := List.mem_map.mp hmem
  have hx : 0 ≤ 2 * confU p ε count / (1 - p.eta) := by
    apply div_nonneg
    · have := confU_nonneg p ε count hγ
      linarith
    · linarith
  have htest : muSup (roundEstimates p est ε cands count) -
      2 * confU p ε count / (1 - p.eta) ≤
      pr.2 + 2 * confU p ε count / (1 - p.eta) := by
    rw [hsup, hpa]
    linarith
  have hfil : pr ∈ (roundEstimates p est ε cands count).filter fun c =>
      decide (muSup (roundEstimates p est ε cands count) -
        2 * confU p ε count / (1 - p.eta) ≤
          c.2 + 2 * confU p ε count / (1 - p.eta)) :=
    List.mem_filter.mpr ⟨hpr, by simpa using htest⟩
  exact List.ne_nil_of_mem (List.mem_map_of_mem Prod.fst hfil)

theorem elimLoop_ne_nil {N : Type} (p : MaxParams) (est : N → ℝ → ℝ → ℝ)
    (ε : ℝ) (hγ : p.gamma < 1) (hη : p.eta < 1) :
    ∀ (fuel : ℕ) (cands : List N) (count : ℕ) (lastMu : List (N × ℝ))
      (U : Option ℝ) (st : List N × List (N × ℝ)),
      cands ≠ [] → elimLoop p est ε fuel cands count lastMu U = some st →
      st.1 ≠ [] := by
  intro fuel
  induction fuel with
  | zero =>
      intro cands count lastMu U st hc h
      rw [elimLoop] at h
      by_cases hcond : 1 < cands.length ∧ uOK p ε U = true
      · rw [if_pos hcond] at h
        exact absurd h (by simp)
      · rw [if_neg hcond] at h
        cases h
        exact hc
  | succ f ih =>
      intro cands count lastMu U st hc h
      rw [elimLoop] at h
      by_cases hcond : 1 < cands.length ∧ uOK p ε U = true
      · rw [if_pos hcond] at h
        cases hr : elimRound p est ε cands count with
        | none => rw [hr] at h; exact absurd h (by simp)
        | some r =>
            rw [hr] at h
            exact ih _ _ _ _ _ (elimRound_ne_nil p est ε cands count r hγ hη hc hr) h
      · rw [if_neg hcond] at h
        cases h
        exact hc

/-- Claim C9 (amended): invariant of the elimination loop for rounds that
complete normally.  A round whose confidence radicand is nonnegative (so that
`np.sqrt` returns a number, nonnegative once `gamma < 1`) never empties the
candidate set, because the candidate attaining the round's maximum `mu_sup`
satisfies the retention test `mu + 2U/(1-eta) >= mu_sup - 2U/(1-eta)` (with
`U ≥ 0` and `eta < 1`); hence whenever the loop, started from a non-empty
children list (`K ≥ 1`), terminates having executed only such rounds, it
leaves a non-empty candidate set and the final selection `candidates[0]` in
`MaxNode.run` succeeds.  (A round with a negative radicand instead produces a
`nan` radius and the call raises — see the counterexample.) -/
theorem maxRun_candidates_nonempty {N : Type} (p : MaxParams)
    (est : N → ℝ → ℝ → ℝ) (ε : ℝ) (cands : List N) (count : ℕ) (fuel : ℕ)
    (children : List N) (m : ℝ) (st : List N × List (N × ℝ))
    (hγ : p.gamma < 1) (hη : p.eta < 1) (hc : cands ≠ []) (hch : children ≠ [])
    (hloop : elimLoop p est ε fuel children 1 [] none = some st) :
    (∀ rnd, elimRound p est ε cands count = some rnd → rnd.1 ≠ []) ∧
    st.1 ≠ [] ∧ (MaxNode.run p est fuel children m ε).isSome := by
  have hst := elimLoop_ne_nil p est ε hγ hη fuel children 1 [] none st hch hloop
  refine ⟨fun rnd hr => elimRound_ne_nil p est ε cands count rnd hγ hη hc hr,
    hst, ?_⟩
  rw [MaxNode.run, hloop]
  obtain ⟨cs, mu⟩ := st
  by_cases hl : 1 < cs.length
  · simp [hl]
  · cases cs with
    | nil => exact absurd rfl hst
    | cons c rest =>
        simp [hl]
        split <;> simp

theorem maxRun_candidates_nonempty_witness :
    (([()], ([] : List (Unit × ℝ))) : List Unit × List (Unit × ℝ)).1 ≠ [] ∧
    (MaxNode.run p0 est0 1 [()] 2 1).isSome :=
  ⟨(maxRun_candidates_nonempty p0 est0 1 [()] 1 1 [()] 2 ([()], [])
      (by norm_num [p0]) (by norm_num [p0]) (by simp) (by simp)
      (elimLoop_singleton p0 est0 1 1 () 1 [] none)).2.1,
   (maxRun_candidates_nonempty p0 est0 1 [()] 1 1 [()] 2 ([()], [])
      (by norm_num [p0]) (by norm_num [p0]) (by simp) (by simp)
      (elimLoop_singleton p0 est0 1 1 () 1 [] none)).2.2⟩

noncomputable def p1 : MaxParams := ⟨1/2, 1/2, 0, 3/4, 2⟩

def est1 : Bool → ℝ → ℝ → ℝ := fun _ _ _ => 0

/-- Claim C9 counterexample: with the valid constants `gamma = 1/2`,
`delta = 1/2`, `alpha = 0`, `eta = 3/4`, `K = 2` and precision
`epsilon = 1000`, the very first round's radicand is
`log(2/((1/2)·1000)) + (1/2)/(3/4-1/2) + 0 + 1 = 3 - log 250 < 0`:
`np.sqrt` yields `nan`, every comparison involving the `nan` radius is false,
and `MaxNode.run` raises instead of returning a value — the elimination loop
does not always hand a surviving candidate to the final selection. -/
theorem elimination_nan_cex :
    confSqr p1 1000 1 < 0 ∧
    MaxNode.run p1 est1 5 [true, false] 3 1000 = none := by
  have h250 : (3:ℝ) < Real.log 250 := by
    rw [Real.lt_log_iff_exp_lt (by norm_num : (0:ℝ) < 250)]
    have h3 : Real.exp 3 = Real.exp 1 ^ (3:ℕ) := by
      rw [← Real.exp_nat_mul]
      norm_num
    rw [h3]
    calc Real.exp 1 ^ (3:ℕ) < 2.7182818286 ^ (3:ℕ) :=
          pow_lt_pow_left₀ Real.exp_one_lt_d9 (le_of_lt (Real.exp_pos 1))
            (by norm_num)
      _ < 250 := by norm_num
  have harg : ((p1.K : ℝ) * ((1:ℕ) : ℝ) / (p1.delta * 1000)) = (250:ℝ)⁻¹ := by
    norm_num [p1]
  have hval : confSqr p1 1000 1 = Real.log (250:ℝ)⁻¹ + 3 := by
    rw [confSqr, harg]
    norm_num [p1]
    ring
  have hneg : confSqr p1 1000 1 < 0 := by
    rw [hval, Real.log_inv]
    linarith
  refine ⟨hneg, ?_⟩
  have hround : elimRound p1 est1 1000 [true, false] 1 =
      (none : Option (List Bool × List (Bool × ℝ) × ℝ)) := by
    rw [elimRound, if_pos hneg]
  have hloop : elimLoop p1 est1 1000 5 [true, false] 1 [] none =
      (none : Option (List Bool × List (Bool × ℝ))) := by
    rw [elimLoop, if_pos ⟨by norm_num, rfl⟩, hround]
  rw [MaxNode.run, hloop]

/-! ## TrailBlazer: parameter derivation -/

/-- `self.eta = np.power(self.gamma, 1/max(2, np.log(1/self.epsilon)))`
(the constructor, line 107). -/
noncomputable def tbEta (γ ε : ℝ) : ℝ := γ ^ (1 / max 2 (Real.log (1/ε)))

/-- The derived constants the constructor stores: `self.eta`, `self.alpha`
(unconditionally overwritten with 0 on line 110, discarding the line-109
formula) and `self.m`. -/
structure TBParams where
  eta : ℝ
  alpha : ℝ
  m : ℝ

/-- `TrailBlazer.__init__(state, gamma, delta, epsilon)`, parameter part.  The
constructor performs no validation; the only Python exception sites are the two
plain-float divisions `1/self.epsilon` (line 107) and `1/self.delta`
(line 111), which raise `ZeroDivisionError` (`none`) at 0.  The division by
`(1 - gamma)**2 * epsilon**2` on line 111 does NOT raise at `gamma = 1`: its
numerator `np.log(1/self.delta) + self.alpha` is an `np.float64`, so numpy
division by `0.0` yields `inf` with a RuntimeWarning and construction succeeds
(the total real division below then stores a junk value where numpy stores
`inf`; the claims about this definition concern only success versus failure).
Building the root `MaxNode` afterwards creates child `AvgNode`s but draws no
generative-model sample. -/
noncomputable def TrailBlazer.init (γ δ ε : ℝ) : Option TBParams :=
  if ε = 0 then none
  else if δ = 0 then none
  else some ⟨tbEta γ ε, 0, (Real.log (1/δ) + 0) / ((1 - γ)^2 * ε^2)⟩

/-- `TrailBlazer.run = self.root.run(self.m, self.epsilon/2)`, the root
`MaxNode.run` abstracted by the oracle `V`: the budget handed down is the
stored `self.m`, as is. -/
noncomputable def TrailBlazer.runWith (V : ℝ → ℝ → ℝ) (γ δ ε : ℝ) : Option ℝ :=
  (TrailBlazer.init γ δ ε).map fun p => V p.m (ε/2)

/-! ## Claim C2: the elimination rate η -/

/-- Claim C2 counterexample: at `γ = 1/2`, `ε = 1` the derived rate is
`η = (1/2)^(1/2) ≈ 0.707`, which is not below `γ`: the exponent
`1/max(2, ln(1/ε)) ≤ 1/2` is less than 1, so the power moves γ towards 1,
never below it. -/
theorem eta_below_gamma_cex : ¬ tbEta (1/2) 1 < 1/2 := by
  have he : tbEta (1/2) 1 = (1/2 : ℝ) ^ ((1:ℝ)/2) := by
    rw [tbEta]
    rw [show Real.log ((1:ℝ)/1) = 0 by norm_num]
    rw [show max (2:ℝ) 0 = 2 from max_eq_left (by norm_num)]
  rw [he]
  have h := Real.rpow_lt_rpow_of_exponent_gt (show (0:ℝ) < 1/2 by norm_num)
    (show (1/2 : ℝ) < 1 by norm_num) (show (1:ℝ)/2 < 1 by norm_num)
  rw [Real.rpow_one] at h
  exact not_lt.mpr (le_of_lt h)

/-- Claim C2 (amended): for every `γ ∈ (0,1)` and `ε > 0` the derived
elimination rate `η = γ^(1/max(2, ln(1/ε)))` lies in `(0,1)` and satisfies
`η > γ` (an elimination rate slightly above `γ`, as the positive exponent is at
most 1/2; the formula `gamma/(eta - gamma)` inside `MaxNode.run` indeed needs
`η > γ`). -/
theorem eta_range_above_gamma (γ ε : ℝ) (hγ0 : 0 < γ) (hγ1 : γ < 1)
    (hε : 0 < ε) :
    (0 < tbEta γ ε ∧ tbEta γ ε < 1) ∧ γ < tbEta γ ε := by
  have hm2 : (2:ℝ) ≤ max 2 (Real.log (1/ε)) := le_max_left _ _
  have hm0 : (0:ℝ) < max 2 (Real.log (1/ε)) := by linarith
  have he0 : 0 < 1 / max 2 (Real.log (1/ε)) := by positivity
  have he1 : 1 / max 2 (Real.log (1/ε)) < 1 := by
    rw [div_lt_one hm0]
    linarith
  refine ⟨⟨Real.rpow_pos_of_pos hγ0 _,
    Real.rpow_lt_one (le_of_lt hγ0) hγ1 he0⟩, ?_⟩
  have h := Real.rpow_lt_rpow_of_exponent_gt hγ0 hγ1 he1
  rw [Real.rpow_one] at h
  exact h

theorem eta_range_above_gamma_witness :
    ((0 < tbEta (1/2) 1 ∧ tbEta (1/2) 1 < 1) ∧ (1/2 : ℝ) < tbEta (1/2) 1) :=
  eta_range_above_gamma (1/2) 1 (by norm_num) (by norm_num) (by norm_num)

/-! ## Claim C3: there is no parameter validation -/

/-- Claim C3 counterexample: constructing a planner with the invalid discount
`γ = 2` (and valid `δ = 1/2`, `ε = 1`) succeeds: no invalid-configuration check
exists in the constructor. -/
theorem init_accepts_invalid_gamma : (TrailBlazer.init 2 (1/2) 1).isSome := by
  rw [TrailBlazer.init]
  norm_num

/-- Claim C3 (amended): the constructor validates nothing.  It fails only on
the two plain-float division-by-zero sites — `ε = 0` (`1/self.epsilon`,
line 107) or `δ = 0` (`1/self.delta`, line 111) — and accepts every other
parameter combination without any error, including `γ` outside `(0,1)`, `δ`
outside `(0,1)` and `ε < 0`.  In particular `γ = 1` does not fail: the
line-111 division's numerator is an `np.float64`, so numpy turns the division
by zero into `inf` with a RuntimeWarning.  No generative-model sampling
happens during construction either way. -/
theorem init_none_iff_zero_division (γ δ ε : ℝ) :
    TrailBlazer.init γ δ ε = none ↔ ε = 0 ∨ δ = 0 := by
  rw [TrailBlazer.init]
  by_cases h1 : ε = 0
  · simp [h1]
  by_cases h2 : δ = 0
  · simp [h1, h2]
  simp [h1, h2]

/-! ## Claim C4: the sampling budget m -/

/-- Claim C4 counterexample: with `γ = 1/2`, `δ = 1/2`, `ε = 1` the stored
budget is `m = ln 2 / ((1/2)^2) = 4·ln 2 ≈ 2.77`, and exactly this value — not
an integer, not rounded up — is what the top-level call hands to
`self.root.run` as its budget argument (extracted here by the oracle
`fun b _ => b`). -/
theorem budget_passed_unrounded_cex :
    TrailBlazer.runWith (fun b _ => b) (1/2) (1/2) 1 = some (4 * Real.log 2) ∧
    ¬ ∃ n : ℤ, (4 * Real.log 2 : ℝ) = (n : ℝ) := by
  constructor
  · rw [TrailBlazer.runWith, TrailBlazer.init]
    rw [if_neg (by norm_num), if_neg (by norm_num)]
    rw [Option.map_some']
    congr 1
    rw [show ((1:ℝ)/(1/2)) = 2 by norm_num]
    ring
  · rintro ⟨n, hn⟩
    have l1 := Real.log_two_gt_d9
    have l2 := Real.log_two_lt_d9
    have h2 : (2:ℝ) < (n : ℝ) := by rw [← hn]; linarith
    have h3 : (n : ℝ) < 3 := by rw [← hn]; linarith
    have h2' : (2:ℤ) < n := by exact_mod_cast h2
    have h3' : n < 3 := by exact_mod_cast h3
    omega

/-- Claim C4 (amended): for valid parameters (`ε ≠ 0`, `δ ≠ 0`, `γ ≠ 1`) the
planner stores `m = (ln(1/δ) + α)/((1−γ)²·ε²)` with `α = 0` and passes it to
the top-level value call unrounded, as a real; the rounding up to an integer
count happens only inside `AvgNode.run`, whose sampling loop leaves the cache
at `max(previous size, ⌈m⌉)` samples. -/
theorem budget_formula_and_ceil_sampling :
    (∀ (γ δ ε : ℝ) (V : ℝ → ℝ → ℝ), ε ≠ 0 → δ ≠ 0 → γ ≠ 1 →
      TrailBlazer.runWith V γ δ ε =
        some (V ((Real.log (1/δ) + 0) / ((1 - γ)^2 * ε^2)) (ε/2))) ∧
    (∀ (S : Type) [DecidableEq S] (γq : ℚ) (stepf : S → ℕ → S × ℚ)
      (cv : S → ℕ → ℚ → ℚ) (nd : AvgState S) (mq εq : ℚ),
      1 - γq ≠ 0 → εq < 1/(1 - γq) →
      ((AvgNode.run γq stepf cv nd mq εq).1).sampled.length =
        max nd.sampled.length (Int.ceil mq).toNat) := by
  constructor
  · intro γ δ ε V h1 h2 h3
    rw [TrailBlazer.runWith, TrailBlazer.init, if_neg h1, if_neg h2]
    rfl
  · intro S _ γq stepf cv nd mq εq h1 h2
    have h2' : ¬ (1/(1-γq) ≤ εq) := not_le.mpr h2
    rw [AvgNode.run, if_neg h1, if_neg h2']
    by_cases hlt : mq < (nd.sampled.length : ℚ)
    · rw [if_pos hlt]
      have hceil : Int.ceil mq ≤ (nd.sampled.length : ℤ) := by
        rw [Int.ceil_le]
        push_cast
        exact le_of_lt hlt
      by_cases hden : mq.den = 1
      · rw [if_pos hden]
        simp
        omega
      · rw [if_neg hden]
        simp
        omega
    · rw [if_neg hlt]
      have hle : (nd.sampled.length : ℚ) ≤ mq := not_lt.mp hlt
      have hceil : (nd.sampled.length : ℤ) ≤ Int.ceil mq := by
        have h := Int.ceil_mono hle
        rwa [Int.ceil_natCast] at h
      simp [drawSamples_fst_length]
      omega

theorem budget_formula_and_ceil_sampling_witness :
    TrailBlazer.runWith (fun b _ => b) (1/3) (1/2) 1 =
      some ((Real.log (1/(1/2)) + 0) / ((1 - 1/3)^2 * 1^2)) ∧
    ((AvgNode.run (1/2 : ℚ) stepD cvZ nd0 2 1).1).sampled.length =
      max nd0.sampled.length (Int.ceil (2:ℚ)).toNat :=
  ⟨budget_formula_and_ceil_sampling.1 (1/3) (1/2) 1 (fun b _ => b)
    (by norm_num) (by norm_num) (by norm_num),
   budget_formula_and_ceil_sampling.2 ℕ (1/2) stepD cvZ nd0 2 1
    (by norm_num) (by norm_num)⟩
